import Mathlib

/-!
Shallow embedding of the taxadb parsers (`taxadb/parser.py`, `taxadb/util.py`).

Strings are modelled as lists of characters (`Str`), so that Python's
`str.split`, `str.strip` and substring tests can be given executable,
kernel-reducible embeddings.  A text file that has been opened and decoded is
modelled as the list of its lines, each line given without its trailing
newline (the source strips it with `rstrip('\n')` or iterates text lines).
The database handle (`Taxa.select`, `Accession.get`) is externalized: the set
of taxonomic ids already in the store arrives as a list `taxids`/`ncbi_ids`,
and the per-accession existence lookup as a boolean-valued function
`accessionExists`.  Python statements that raise (`IndexError` on a too-short
split, `sys.exit` in `fatal`) are modelled with `Option`/`Except`: a raising
run is `none`/`.error`, a completing run is `some`/`.ok`.
-/

/-- A Python string, as its list of characters. -/
abbrev Str := List Char

/-- The tab character used by `strip('\t')` and `split('\t')`. -/
def tabChar : Char := '\t'

/-- The pipe character used by `split('|')`. -/
def pipeChar : Char := '|'

/-- Python `s.split(c)` for a one-character separator `c`: split at every
occurrence of `c`; the result always has at least one (possibly empty)
element, e.g. `''.split('|') == ['']`. -/
def splitOnChar (c : Char) : List Char → List (List Char)
  | [] => [[]]
  | x :: xs =>
    if x = c then [] :: splitOnChar c xs
    else
      match splitOnChar c xs with
      | [] => [[x]]
      | h :: t => (x :: h) :: t

/-- Python `s.strip(c)` for a one-character argument: remove every leading and
trailing occurrence of `c`. -/
def stripChar (c : Char) (l : List Char) : List Char :=
  ((l.dropWhile (· = c)).reverse.dropWhile (· = c)).reverse

/-- Python `pat in s`: substring containment. -/
def hasSub : List Char → List Char → Bool
  | pat, [] => pat.isEmpty
  | pat, l@(_ :: xs) => pat.isPrefixOf l || hasSub pat xs

/-- The literal marker `'scientific name'` selecting rows of `names.dmp`. -/
def scientificName : Str := ("scientific name").data

/-- The three failure cases of `TaxaParser.check_file`.  In the source each
one calls `util.fatal`, which prints a distinct message and terminates the
process with exit status 1; the spec names the three cases
`ConfigurationError` (fatal "Please provide an input file to check"),
`NotFoundError` (fatal "File %s does not exist") and `InvalidInputError`
(fatal "%s is not a file"). -/
inductive CheckError where
  | ConfigurationError : CheckError
  | NotFoundError : CheckError
  | InvalidInputError : CheckError
deriving Repr, DecidableEq

/-- The file-system facts `os.path.exists` and `os.path.isfile` consult,
externalized as two boolean predicates on paths. -/
structure FS where
  pathExists : Str → Bool
  isFile : Str → Bool

/-- `TaxaParser.check_file(element)` (parser.py lines 19-41): fatal when
`element is None`, fatal when the path does not exist, fatal when it exists
but is not a regular file, and otherwise `return True`. -/
def check_file (fs : FS) (element : Option Str) : Except CheckError Bool :=
  match element with
  | none => .error .ConfigurationError
  | some p =>
    if ¬ fs.pathExists p then .error .NotFoundError
    else if ¬ fs.isFile p then .error .InvalidInputError
    else .ok true

/-- One entry of `nodes_data` (parser.py lines 100-105): the dict built from a
surviving line of `nodes.dmp`, with `tax_name` initialized empty. -/
structure NodeRecord where
  ncbi_taxid : Str
  parent_taxid : Str
  tax_name : Str
  lineage_level : Str
deriving Repr, DecidableEq

/-- One entry of `names_data` (parser.py lines 119-122): the dict built from a
surviving `scientific name` line of `names.dmp`. -/
structure NameRecord where
  ncbi_taxid : Str
  tax_name : Str
deriving Repr, DecidableEq

/-- One merged taxon dict `{**nodes, **names}` (parser.py line 129). -/
structure TaxaInfo where
  ncbi_taxid : Str
  parent_taxid : Str
  tax_name : Str
  lineage_level : Str
deriving Repr, DecidableEq

/-- Processing of one line of `nodes.dmp` (parser.py lines 96-106): split on
`'|'`, take field 0 stripped of tabs as the id, `continue` when the id is
already known (`some none`), otherwise build the dict - which reads fields 1
and 2 and so raises `IndexError` (`none`) when the split has fewer than three
fields. -/
def nodesLineStep (ncbi_ids : List Str) (line : Str) : Option (Option NodeRecord) :=
  let line_list := splitOnChar pipeChar line
  let ncbi_id := stripChar tabChar (line_list.headD [])
  if ncbi_id ∈ ncbi_ids then some none
  else
    match line_list with
    | f0 :: f1 :: f2 :: _ =>
      some (some { ncbi_taxid := stripChar tabChar f0
                 , parent_taxid := stripChar tabChar f1
                 , tax_name := []
                 , lineage_level := stripChar tabChar f2 })
    | _ => none

/-- The `nodes_data` accumulation loop (parser.py lines 94-106) over the lines
of `nodes.dmp`; `none` when some line raises. -/
def nodesData (ncbi_ids : List Str) : List Str → Option (List NodeRecord)
  | [] => some []
  | line :: rest => do
    let r ← nodesLineStep ncbi_ids line
    let tl ← nodesData ncbi_ids rest
    match r with
    | none => pure tl
    | some d => pure (d :: tl)

/-- Processing of one line of `names.dmp` (parser.py lines 113-123): only
lines containing `'scientific name'` are considered; split on `'|'`, skip when
the tab-stripped field 0 is already known, otherwise build the dict - which
reads field 1 and so raises (`none`) when the split has fewer than two
fields. -/
def namesLineStep (ncbi_ids : List Str) (line : Str) : Option (Option NameRecord) :=
  if hasSub scientificName line then
    let line_list := splitOnChar pipeChar line
    let ncbi_id := stripChar tabChar (line_list.headD [])
    if ncbi_id ∈ ncbi_ids then some none
    else
      match line_list with
      | f0 :: f1 :: _ =>
        some (some { ncbi_taxid := stripChar tabChar f0
                   , tax_name := stripChar tabChar f1 })
      | _ => none
  else some none

/-- The `names_data` accumulation loop (parser.py lines 112-123). -/
def namesData (ncbi_ids : List Str) : List Str → Option (List NameRecord)
  | [] => some []
  | line :: rest => do
    let r ← namesLineStep ncbi_ids line
    let tl ← namesData ncbi_ids rest
    match r with
    | none => pure tl
    | some d => pure (d :: tl)

/-- The dict merge `{**nodes, **names}` (parser.py line 129): keys present in
the names dict (`ncbi_taxid`, `tax_name`) take the names row's values, the
remaining keys (`parent_taxid`, `lineage_level`) keep the nodes row's. -/
def mergeRecord (nodes : NodeRecord) (names : NameRecord) : TaxaInfo :=
  { ncbi_taxid := names.ncbi_taxid
  , parent_taxid := nodes.parent_taxid
  , tax_name := names.tax_name
  , lineage_level := nodes.lineage_level }

/-- `TaxaDumpParser.taxdump` (parser.py lines 68-132) after path resolution
and `check_file`: build `nodes_data` from the nodes file and `names_data` from
the names file (both filtered against the store's known ids `ncbi_ids`), then
`zip` them positionally and merge each pair. -/
def taxdump (ncbi_ids : List Str) (nodesLines namesLines : List Str) :
    Option (List TaxaInfo) := do
  let nodes_data ← nodesData ncbi_ids nodesLines
  let names_data ← namesData ncbi_ids namesLines
  pure ((nodes_data.zip names_data).map fun p => mergeRecord p.1 p.2)

/-- The mutable path state of `TaxaDumpParser` (parser.py lines 60-66). -/
structure TaxaDumpParserState where
  nodes_file : Option Str
  names_file : Option Str
deriving Repr, DecidableEq

/-- `TaxaDumpParser.set_nodes_file` (parser.py lines 134-153): fatal when the
argument is `None`, then `check_file`, and only then assign
`self.nodes_file` and `return True`.  The returned state is the parser state
after the call; on error the process dies before the assignment, so the
state is the unmodified input state. -/
def set_nodes_file (fs : FS) (st : TaxaDumpParserState) (nodesFileArg : Option Str) :
    TaxaDumpParserState × Except CheckError Bool :=
  match nodesFileArg with
  | none => (st, .error .ConfigurationError)
  | some p =>
    match check_file fs (some p) with
    | .error e => (st, .error e)
    | .ok _ => ({ st with nodes_file := some p }, .ok true)

/-- `TaxaDumpParser.set_names_file` (parser.py lines 155-174), same shape. -/
def set_names_file (fs : FS) (st : TaxaDumpParserState) (namesFileArg : Option Str) :
    TaxaDumpParserState × Except CheckError Bool :=
  match namesFileArg with
  | none => (st, .error .ConfigurationError)
  | some p =>
    match check_file fs (some p) with
    | .error e => (st, .error e)
    | .ok _ => ({ st with names_file := some p }, .ok true)

/-- One dict `{'accession': ..., 'taxid': ...}` appended to `entries`
(parser.py lines 249-252 and 256-258). -/
structure AccEntry where
  accession : Str
  taxid : Str
deriving Repr, DecidableEq

/-- The mutable state of `Accession2TaxidParser` (parser.py lines 188-192). -/
structure Accession2TaxidParserState where
  acc_file : Option Str
  chunk : Nat
  fast : Bool
deriving Repr, DecidableEq

/-- `Accession2TaxidParser.set_accession_file` (parser.py lines 269-285):
fatal when the argument is `None`, then `check_file`, and only then assign
`self.acc_file` and `return True`. -/
def set_accession_file (fs : FS) (st : Accession2TaxidParserState)
    (accFileArg : Option Str) : Accession2TaxidParserState × Except CheckError Bool :=
  match accFileArg with
  | none => (st, .error .ConfigurationError)
  | some p =>
    match check_file fs (some p) with
    | .error e => (st, .error e)
    | .ok _ => ({ st with acc_file := some p }, .ok true)

/-- The value Python binds to the `chunk` parameter of
`accession2taxid(self, acc2taxid=None, chunk=500)` when the call site writes
no chunk argument: the function default `500`.  (`none` models an explicit
`chunk=None`.) -/
def chunkDefaultArg : Option Nat := some 500

/-- The chunk resolution `if not chunk: chunk = self.chunk` (parser.py lines
230-231): a falsy argument - `None`, or the integer `0` - is replaced by the
instance's stored `self.chunk`; any other integer is kept. -/
def resolveChunk (selfChunk : Nat) (chunkArg : Option Nat) : Nat :=
  match chunkArg with
  | none => selfChunk
  | some n => if n = 0 then selfChunk else n

/-- The per-line loop of `Accession2TaxidParser.accession2taxid` (parser.py
lines 235-267), as a function of the remaining lines, the current `entries`
batch and the `accessions` seen-set.  Each line is split on `'\t'`; reading
`line_list[2]` raises `IndexError` (`none`) when the split has fewer than
three fields.  A line whose field 2 is not a known taxid is skipped.  In
non-fast mode a line whose field 0 is already in `accessions` is skipped;
otherwise `Accession.get` is consulted (`accessionExists`) and only when it
raises `DoesNotExist` is the accession added to `accessions`; the entry is
appended either way.  In fast mode the entry is appended unconditionally.
When the batch length reaches `chunk` the batch is yielded and reset; after
the last line a non-empty remainder batch is yielded. -/
def accLoop (taxids : List Str) (fast : Bool) (accessionExists : Str → Bool)
    (chunk : Nat) :
    List Str → List AccEntry → List Str → Option (List (List AccEntry))
  | [], entries, _ => some (if entries.isEmpty then [] else [entries])
  | line :: rest, entries, accessions =>
    match splitOnChar tabChar line with
    | f0 :: _f1 :: f2 :: _ =>
      if f2 ∉ taxids then accLoop taxids fast accessionExists chunk rest entries accessions
      else if fast then
        let entries' := entries ++ [{ accession := f0, taxid := f2 }]
        if entries'.length = chunk then
          (accLoop taxids fast accessionExists chunk rest [] accessions).map (entries' :: ·)
        else accLoop taxids fast accessionExists chunk rest entries' accessions
      else
        if f0 ∈ accessions then accLoop taxids fast accessionExists chunk rest entries accessions
        else
          let accessions' := if accessionExists f0 then accessions else f0 :: accessions
          let entries' := entries ++ [{ accession := f0, taxid := f2 }]
          if entries'.length = chunk then
            (accLoop taxids fast accessionExists chunk rest [] accessions').map (entries' :: ·)
          else accLoop taxids fast accessionExists chunk rest entries' accessions'
    | _ => none

/-- `Accession2TaxidParser.accession2taxid` (parser.py lines 194-267) after
path resolution and `check_file`, on the decoded lines of the input file: the
first line is discarded unread (`f.readline()`, line 234), then the loop runs
with an empty batch and an empty seen-set.  The result is the list of yielded
batches in order, or `none` if some line raised. -/
def accession2taxid (taxids : List Str) (fast : Bool)
    (accessionExists : Str → Bool) (chunk : Nat) (fileLines : List Str) :
    Option (List (List AccEntry)) :=
  accLoop taxids fast accessionExists chunk (fileLines.drop 1) [] []

/-- The eligible-record stream the spec describes (§4.3 steps 6, without the
chunking of step 6's last bullet): the sequence of `AccessionRecord`s that
survive the taxid filter and, in non-fast mode, the in-pass dedup, in input
line order, together with the final seen-set.  This is the unchunked
reference stream against which the batched output is compared. -/
def filterStream (taxids : List Str) (fast : Bool) (accessionExists : Str → Bool) :
    List Str → List Str → Option (List AccEntry × List Str)
  | [], accessions => some ([], accessions)
  | line :: rest, accessions =>
    match splitOnChar tabChar line with
    | f0 :: _f1 :: f2 :: _ =>
      if f2 ∉ taxids then filterStream taxids fast accessionExists rest accessions
      else if fast then
        (filterStream taxids fast accessionExists rest accessions).map
          (fun p => ({ accession := f0, taxid := f2 } :: p.1, p.2))
      else
        if f0 ∈ accessions then filterStream taxids fast accessionExists rest accessions
        else
          let accessions' := if accessionExists f0 then accessions else f0 :: accessions
          (filterStream taxids fast accessionExists rest accessions').map
            (fun p => ({ accession := f0, taxid := f2 } :: p.1, p.2))
    | _ => none

/-! ### Helper lemmas -/

/-- Flattening the chunked output of the accession loop recovers the
unchunked filtered stream, whatever the current batch and seen-set. -/
theorem accLoop_flatten (taxids : List Str) (fast : Bool) (ex : Str → Bool)
    (chunk : Nat) :
    ∀ (lines : List Str) (entries : List AccEntry) (accs : List Str),
      (accLoop taxids fast ex chunk lines entries accs).map List.flatten
        = (filterStream taxids fast ex lines accs).map (fun p => entries ++ p.1)
  | [], entries, accs => by
    by_cases h : entries.isEmpty <;>
      simp_all [accLoop, filterStream, List.isEmpty_iff]
  | line :: rest, entries, accs => by
    have ihKeep := accLoop_flatten taxids fast ex chunk rest entries accs
    rcases hs : splitOnChar tabChar line with _ | ⟨f0, _ | ⟨g1, _ | ⟨f2, fs⟩⟩⟩ <;>
      simp only [accLoop, filterStream, hs] <;> try rfl
    by_cases hf2 : f2 ∈ taxids
    · simp only [hf2, not_true_eq_false, ite_false, if_false, reduceIte]
      have hcons : ∀ (accs' : List Str) (e : AccEntry),
          ((if (entries ++ [e]).length = chunk then
              (accLoop taxids fast ex chunk rest [] accs').map ((entries ++ [e]) :: ·)
            else accLoop taxids fast ex chunk rest (entries ++ [e]) accs').map
                List.flatten
            = ((filterStream taxids fast ex rest accs').map
                (fun p => (e :: p.1, p.2))).map (fun p => entries ++ p.1)) := by
        intro accs' e
        have ih0 := accLoop_flatten taxids fast ex chunk rest [] accs'
        have ihE := accLoop_flatten taxids fast ex chunk rest (entries ++ [e]) accs'
        by_cases hfull : (entries ++ [e]).length = chunk
        · rw [if_pos hfull]
          cases ho : accLoop taxids fast ex chunk rest [] accs' with
          | none =>
            rw [ho] at ih0
            cases hfs : filterStream taxids fast ex rest accs' with
            | none => simp [ho, hfs]
            | some p => rw [hfs] at ih0; simp at ih0
          | some bss =>
            rw [ho] at ih0
            cases hfs : filterStream taxids fast ex rest accs' with
            | none => rw [hfs] at ih0; simp at ih0
            | some p =>
              rw [hfs] at ih0
              simp at ih0
              simp [ho, hfs, ih0]
        · rw [if_neg hfull, ihE]
          cases hfs : filterStream taxids fast ex rest accs' <;> simp [hfs]
      cases fast with
      | true => simpa using hcons accs { accession := f0, taxid := f2 }
      | false =>
        by_cases hseen : f0 ∈ accs
        · simpa only [hseen, ite_true, reduceIte] using
            accLoop_flatten taxids false ex chunk rest entries accs
        · simpa only [hseen, ite_false, reduceIte] using
            hcons (if ex f0 = true then accs else f0 :: accs)
              { accession := f0, taxid := f2 }
    · simpa only [hf2, not_false_iff, ite_true, reduceIte] using ihKeep

/-- Prepending a full batch preserves the batch-size invariant. -/
theorem sizes_cons (chunk : Nat) (hc : 1 ≤ chunk) (b : List AccEntry)
    (bs : List (List AccEntry)) (hb : b.length = chunk)
    (h1 : ∀ x ∈ bs.dropLast, x.length = chunk)
    (h2 : ∀ x ∈ bs, 1 ≤ x.length ∧ x.length ≤ chunk) :
    (∀ x ∈ (b :: bs).dropLast, x.length = chunk) ∧
      (∀ x ∈ b :: bs, 1 ≤ x.length ∧ x.length ≤ chunk) := by
  constructor
  · intro x hx
    rcases bs with _ | ⟨y, ys⟩
    · simp at hx
    · rw [List.dropLast_cons₂] at hx
      rcases List.mem_cons.mp hx with h | h
      · exact h ▸ hb
      · exact h1 x h
  · intro x hx
    rcases List.mem_cons.mp hx with h | h
    · exact h ▸ ⟨hb ▸ hc, le_of_eq hb⟩
    · exact h2 x h

/-- Every batch produced by the accession loop except possibly the last has
length exactly `chunk`, and every batch is non-empty and no longer than
`chunk`, provided `chunk ≥ 1` and the current batch is not yet full. -/
theorem accLoop_sizes (taxids : List Str) (fast : Bool) (ex : Str → Bool)
    (chunk : Nat) (hc : 1 ≤ chunk) :
    ∀ (lines : List Str) (entries : List AccEntry) (accs : List Str)
      (bs : List (List AccEntry)), entries.length < chunk →
      accLoop taxids fast ex chunk lines entries accs = some bs →
      (∀ b ∈ bs.dropLast, b.length = chunk) ∧
        (∀ b ∈ bs, 1 ≤ b.length ∧ b.length ≤ chunk)
  | [], entries, accs, bs, hlt, h => by
    rw [accLoop] at h
    rcases entries with _ | ⟨x, xs⟩
    · simp at h
      subst h; simp
    · simp at h
      subst h
      refine ⟨by simp [List.dropLast], ?_⟩
      intro b hb
      rcases List.mem_singleton.mp hb with rfl
      exact ⟨by simp, le_of_lt hlt⟩
  | line :: rest, entries, accs, bs, hlt, h => by
    have hstep : ∀ (accs' : List Str) (e : AccEntry),
        ((if (entries ++ [e]).length = chunk then
            (accLoop taxids fast ex chunk rest [] accs').map ((entries ++ [e]) :: ·)
          else accLoop taxids fast ex chunk rest (entries ++ [e]) accs')
            = some bs) →
        (∀ b ∈ bs.dropLast, b.length = chunk) ∧
          (∀ b ∈ bs, 1 ≤ b.length ∧ b.length ≤ chunk) := by
      intro accs' e hy
      by_cases hfull : (entries ++ [e]).length = chunk
      · rw [if_pos hfull] at hy
        rcases Option.map_eq_some'.mp hy with ⟨bs', hbs', rfl⟩
        have ih := accLoop_sizes taxids fast ex chunk hc rest [] accs' bs'
          (by simpa using hc) hbs'
        exact sizes_cons chunk hc _ bs' hfull ih.1 ih.2
      · rw [if_neg hfull] at hy
        have hlt' : (entries ++ [e]).length < chunk := by
          simp at hfull ⊢
          omega
        exact accLoop_sizes taxids fast ex chunk hc rest (entries ++ [e]) accs' bs
          hlt' hy
    rcases hs : splitOnChar tabChar line with _ | ⟨f0, _ | ⟨g1, _ | ⟨f2, fs⟩⟩⟩
    · simp [accLoop, hs] at h
    · simp [accLoop, hs] at h
    · simp [accLoop, hs] at h
    simp only [accLoop, hs] at h
    by_cases hf2 : f2 ∈ taxids
    · rw [if_neg (by simpa using hf2)] at h
      cases fast with
      | true =>
        rw [if_pos rfl] at h
        exact hstep accs { accession := f0, taxid := f2 } h
      | false =>
        rw [if_neg (by simp)] at h
        by_cases hseen : f0 ∈ accs
        · rw [if_pos hseen] at h
          exact accLoop_sizes taxids false ex chunk hc rest entries accs bs hlt h
        · rw [if_neg hseen] at h
          exact hstep (if ex f0 = true then accs else f0 :: accs)
            { accession := f0, taxid := f2 } h
    · rw [if_pos (by simpa using hf2)] at h
      exact accLoop_sizes taxids fast ex chunk hc rest entries accs bs hlt h

/-- Every record of the filtered stream carries a taxid that is in the
known-id set. -/
theorem filterStream_taxids (taxids : List Str) (fast : Bool) (ex : Str → Bool) :
    ∀ (lines accs : List Str) (p : List AccEntry × List Str),
      filterStream taxids fast ex lines accs = some p →
      ∀ r ∈ p.1, r.taxid ∈ taxids
  | [], accs, p, h => by
    rw [filterStream] at h
    obtain rfl := Option.some_inj.mp h
    simp
  | line :: rest, accs, p, h => by
    have hstep : ∀ (accs' : List Str) (e : AccEntry), e.taxid ∈ taxids →
        ((filterStream taxids fast ex rest accs').map
            (fun q => (e :: q.1, q.2)) = some p) →
        ∀ r ∈ p.1, r.taxid ∈ taxids := by
      intro accs' e he hy
      rcases Option.map_eq_some'.mp hy with ⟨q, hq, rfl⟩
      intro r hr
      rcases List.mem_cons.mp hr with rfl | hr
      · exact he
      · exact filterStream_taxids taxids fast ex rest accs' q hq r hr
    rcases hs : splitOnChar tabChar line with _ | ⟨f0, _ | ⟨g1, _ | ⟨f2, fs⟩⟩⟩
    · simp [filterStream, hs] at h
    · simp [filterStream, hs] at h
    · simp [filterStream, hs] at h
    simp only [filterStream, hs] at h
    by_cases hf2 : f2 ∈ taxids
    · rw [if_neg (by simpa using hf2)] at h
      cases fast with
      | true =>
        rw [if_pos rfl] at h
        exact hstep accs _ hf2 h
      | false =>
        rw [if_neg (by simp)] at h
        by_cases hseen : f0 ∈ accs
        · rw [if_pos hseen] at h
          exact filterStream_taxids taxids false ex rest accs p h
        · rw [if_neg hseen] at h
          exact hstep (if ex f0 = true then accs else f0 :: accs) _ hf2 h
    · rw [if_pos (by simpa using hf2)] at h
      exact filterStream_taxids taxids fast ex rest accs p h

/-- A node record built from a line of `nodes.dmp` has an id that was not in
the known-id set: known ids are skipped before the record is built. -/
theorem nodesLineStep_not_known (ncbi_ids : List Str) (line : Str)
    (d : NodeRecord) (h : nodesLineStep ncbi_ids line = some (some d)) :
    d.ncbi_taxid ∉ ncbi_ids := by
  rcases hs : splitOnChar pipeChar line with _ | ⟨f0, _ | ⟨f1, _ | ⟨f2, fs⟩⟩⟩ <;>
    simp only [nodesLineStep, hs, List.headD_cons, List.headD_nil] at h
  · split at h <;> simp at h
  · split at h <;> simp at h
  · split at h <;> simp at h
  · by_cases hid : stripChar tabChar f0 ∈ ncbi_ids
    · rw [if_pos hid] at h
      simp at h
    · rw [if_neg hid] at h
      have hd : ({ ncbi_taxid := stripChar tabChar f0
                 , parent_taxid := stripChar tabChar f1
                 , tax_name := []
                 , lineage_level := stripChar tabChar f2 } : NodeRecord) = d := by
        simpa using h
      rw [← hd]
      exact hid

/-- A name record built from a line of `names.dmp` has an id that was not in
the known-id set. -/
theorem namesLineStep_not_known (ncbi_ids : List Str) (line : Str)
    (d : NameRecord) (h : namesLineStep ncbi_ids line = some (some d)) :
    d.ncbi_taxid ∉ ncbi_ids := by
  by_cases hm : hasSub scientificName line = true
  case neg => simp [namesLineStep, hm] at h
  case pos =>
    rcases hs : splitOnChar pipeChar line with _ | ⟨f0, _ | ⟨f1, fs⟩⟩ <;>
      simp only [namesLineStep, hm, hs, List.headD_cons, List.headD_nil,
        ite_true, if_true] at h
    · split at h <;> simp at h
    · split at h <;> simp at h
    · by_cases hid : stripChar tabChar f0 ∈ ncbi_ids
      · rw [if_pos hid] at h
        simp at h
      · rw [if_neg hid] at h
        have hd : ({ ncbi_taxid := stripChar tabChar f0
                   , tax_name := stripChar tabChar f1 } : NameRecord) = d := by
          simpa using h
        rw [← hd]
        exact hid

/-- No record of `nodes_data` carries an id of the known-id set. -/
theorem nodesData_not_known (ncbi_ids : List Str) :
    ∀ (lines : List Str) (nd : List NodeRecord),
      nodesData ncbi_ids lines = some nd →
      ∀ r ∈ nd, r.ncbi_taxid ∉ ncbi_ids
  | [], nd, h => by
    rw [nodesData] at h
    obtain rfl := Option.some_inj.mp h
    simp
  | line :: rest, nd, h => by
    rw [nodesData] at h
    rcases hstep : nodesLineStep ncbi_ids line with _ | r
    · rw [hstep] at h
      simp at h
    · rw [hstep] at h
      rcases htl : nodesData ncbi_ids rest with _ | tl
      · rw [htl] at h
        simp at h
      · rw [htl] at h
        cases r with
        | none =>
          simp at h
          subst h
          exact nodesData_not_known ncbi_ids rest tl htl
        | some dd =>
          simp at h
          subst h
          intro x hx
          rcases List.mem_cons.mp hx with rfl | hx
          · exact nodesLineStep_not_known ncbi_ids line x hstep
          · exact nodesData_not_known ncbi_ids rest tl htl x hx

/-- No record of `names_data` carries an id of the known-id set. -/
theorem namesData_not_known (ncbi_ids : List Str) :
    ∀ (lines : List Str) (nm : List NameRecord),
      namesData ncbi_ids lines = some nm →
      ∀ r ∈ nm, r.ncbi_taxid ∉ ncbi_ids
  | [], nm, h => by
    rw [namesData] at h
    obtain rfl := Option.some_inj.mp h
    simp
  | line :: rest, nm, h => by
    rw [namesData] at h
    rcases hstep : namesLineStep ncbi_ids line with _ | r
    · rw [hstep] at h
      simp at h
    · rw [hstep] at h
      rcases htl : namesData ncbi_ids rest with _ | tl
      · rw [htl] at h
        simp at h
      · rw [htl] at h
        cases r with
        | none =>
          simp at h
          subst h
          exact namesData_not_known ncbi_ids rest tl htl
        | some dd =>
          simp at h
          subst h
          intro x hx
          rcases List.mem_cons.mp hx with rfl | hx
          · exact namesLineStep_not_known ncbi_ids line x hstep
          · exact namesData_not_known ncbi_ids rest tl htl x hx

/-- No merged record of `taxdump` carries an id of the known-id set. -/
theorem taxdump_not_known (ncbi_ids : List Str) (nl ml : List Str)
    (out : List TaxaInfo) (h : taxdump ncbi_ids nl ml = some out) :
    ∀ t ∈ out, t.ncbi_taxid ∉ ncbi_ids := by
  rw [taxdump] at h
  rcases hnd : nodesData ncbi_ids nl with _ | nd
  · rw [hnd] at h
    simp at h
  · rw [hnd] at h
    rcases hnm : namesData ncbi_ids ml with _ | nm
    · rw [hnm] at h
      simp at h
    · rw [hnm] at h
      simp at h
      subst h
      intro t ht
      rcases List.mem_map.mp ht with ⟨p, hp, rfl⟩
      obtain ⟨a, b⟩ := p
      exact namesData_not_known ncbi_ids ml nm hnm b (List.of_mem_zip hp).2

/-- Splitting a separator-free string yields the single-field list. -/
theorem splitOnChar_of_not_mem (c : Char) :
    ∀ (a : List Char), c ∉ a → splitOnChar c a = [a]
  | [], _ => rfl
  | x :: xs, h => by
    have hxc : ¬ x = c := fun he => h (by rw [he]; exact List.mem_cons_self c xs)
    have h' : c ∉ xs := fun hc => h (List.mem_cons_of_mem x hc)
    simp only [splitOnChar, if_neg hxc, splitOnChar_of_not_mem c xs h']

/-- Splitting peels off a leading separator-free field. -/
theorem splitOnChar_field (c : Char) :
    ∀ (a b : List Char), c ∉ a →
      splitOnChar c (a ++ c :: b) = a :: splitOnChar c b
  | [], b, _ => by rw [List.nil_append, splitOnChar, if_pos rfl]
  | x :: xs, b, h => by
    have hxc : ¬ x = c := fun he => h (by rw [he]; exact List.mem_cons_self c xs)
    have h' : c ∉ xs := fun hc => h (List.mem_cons_of_mem x hc)
    simp only [List.cons_append, splitOnChar, if_neg hxc, List.append_eq,
      splitOnChar_field c xs b h']

/-- The line predicate behind the phrase "eligible line holding accession
`a`": the tab-split has at least three fields, field 0 is `a`, and field 2 is
a known taxid.  (Stated from the spec's §4.3 step 6 wording, used to count
how many input lines mention an accession eligibly.) -/
def eligLineFor (taxids : List Str) (a : Str) (line : Str) : Bool :=
  match splitOnChar tabChar line with
  | f0 :: _ :: f2 :: _ => f0 == a && decide (f2 ∈ taxids)
  | _ => false

/-- In non-fast mode, an accession the store already holds (`ex a = true`) is
never added to the seen-set, and the stream therefore carries one record for
it per eligible input line. -/
theorem filterStream_store_present (taxids : List Str) (ex : Str → Bool)
    (a : Str) (hex : ex a = true) :
    ∀ (lines accs : List Str) (p : List AccEntry × List Str),
      a ∉ accs →
      filterStream taxids false ex lines accs = some p →
      a ∉ p.2 ∧
        (p.1.filter (fun r => r.accession == a)).length
          = lines.countP (eligLineFor taxids a)
  | [], accs, p, hna, h => by
    rw [filterStream] at h
    obtain rfl := Option.some_inj.mp h
    simpa using hna
  | line :: rest, accs, p, hna, h => by
    rcases hs : splitOnChar tabChar line with _ | ⟨f0, _ | ⟨g1, _ | ⟨f2, fs⟩⟩⟩
    · simp [filterStream, hs] at h
    · simp [filterStream, hs] at h
    · simp [filterStream, hs] at h
    simp only [filterStream, hs] at h
    have helig : eligLineFor taxids a line
        = (f0 == a && decide (f2 ∈ taxids)) := by
      rw [eligLineFor, hs]
    by_cases hf2 : f2 ∈ taxids
    · rw [if_neg (by simpa using hf2), if_neg (by simp)] at h
      by_cases hseen : f0 ∈ accs
      · rw [if_pos hseen] at h
        have hne : (f0 == a) = false := by
          simp only [beq_eq_false_iff_ne]
          intro he
          exact hna (he ▸ hseen)
        have ih := filterStream_store_present taxids ex a hex rest accs p hna h
        refine ⟨ih.1, ?_⟩
        rw [List.countP_cons, helig, hne]
        simpa using ih.2
      · rw [if_neg hseen] at h
        rcases Option.map_eq_some'.mp h with ⟨q, hq, rfl⟩
        have hna' : a ∉ (if ex f0 = true then accs else f0 :: accs) := by
          by_cases hf0 : f0 = a
          · subst hf0
            rw [if_pos hex]
            exact hna
          · split
            · exact hna
            · intro hc
              rcases List.mem_cons.mp hc with he | hc
              · exact hf0 he.symm
              · exact hna hc
        have ih := filterStream_store_present taxids ex a hex rest
          (if ex f0 = true then accs else f0 :: accs) q hna' hq
        refine ⟨ih.1, ?_⟩
        by_cases hf0 : f0 = a
        · have hbeq : (f0 == a) = true := by simpa using hf0
          simp only [List.filter_cons, List.countP_cons, helig, hbeq, hf2]
          simp [ih.2]
        · have hbeq : (f0 == a) = false := by simpa using hf0
          simp only [List.filter_cons, List.countP_cons, helig, hbeq]
          simpa using ih.2
    · rw [if_pos (by simpa using hf2)] at h
      have ih := filterStream_store_present taxids ex a hex rest accs p hna h
      refine ⟨ih.1, ?_⟩
      rw [List.countP_cons, helig]
      simpa [hf2] using ih.2

/-! ### Claim theorems -/

/-- C1: `taxdump` merges the filtered nodes-sequence and names-sequence
strictly by position: the merged list has the length of the shorter of the
two sequences, and for every index `i` below both lengths, merged record `i`
takes its taxonomic id and name from `names_data[i]` and its parent id and
rank from `nodes_data[i]` (the names row wins on the overlapping keys). -/
theorem taxdump_positional_merge (ncbi_ids nl ml : List Str)
    (nd : List NodeRecord) (nm : List NameRecord)
    (hnd : nodesData ncbi_ids nl = some nd)
    (hnm : namesData ncbi_ids ml = some nm) :
    ∃ out, taxdump ncbi_ids nl ml = some out ∧
      out.length = min nd.length nm.length ∧
      ∀ i (h1 : i < nd.length) (h2 : i < nm.length),
        out[i]? = some
          { ncbi_taxid := nm[i].ncbi_taxid
          , parent_taxid := nd[i].parent_taxid
          , tax_name := nm[i].tax_name
          , lineage_level := nd[i].lineage_level } := by
  refine ⟨(nd.zip nm).map fun p => mergeRecord p.1 p.2, ?_, ?_, ?_⟩
  · rw [taxdump, hnd, hnm]
    rfl
  · simp [List.length_zip]
  · intro i h1 h2
    have hz : i < ((nd.zip nm).map fun p => mergeRecord p.1 p.2).length := by
      simp [List.length_zip]
      omega
    rw [List.getElem?_eq_getElem hz]
    congr 1
    rw [List.getElem_map, List.getElem_zip]
    rfl

/-- Witness for C1 at a concrete pair of one-line input files. -/
theorem taxdump_positional_merge_witness :
    ∃ out, taxdump [] [("1|0|species").data] [("1|n|scientific name").data]
        = some out ∧
      out.length = 1 ∧
      out[0]? = some
        { ncbi_taxid := ("1").data, parent_taxid := ("0").data
        , tax_name := ("n").data, lineage_level := ("species").data } := by
  obtain ⟨out, hout, hlen, hidx⟩ := taxdump_positional_merge []
    [("1|0|species").data] [("1|n|scientific name").data]
    [{ ncbi_taxid := ("1").data, parent_taxid := ("0").data
     , tax_name := [], lineage_level := ("species").data }]
    [{ ncbi_taxid := ("1").data, tax_name := ("n").data }]
    (by decide) (by decide)
  exact ⟨out, hout, by simpa using hlen, by simpa using hidx 0 (by decide) (by decide)⟩

/-- C2: with `chunk ≥ 1`, every batch yielded by `accession2taxid` other than
possibly the last has length exactly `chunk`, every batch has length between
1 and `chunk`, and no batch at all is yielded when the filtered stream holds
no eligible record. -/
theorem accession2taxid_batch_size_invariant (taxids : List Str) (fast : Bool)
    (ex : Str → Bool) (chunk : Nat) (fileLines : List Str)
    (bs : List (List AccEntry)) (hc : 1 ≤ chunk)
    (h : accession2taxid taxids fast ex chunk fileLines = some bs) :
    (∀ b ∈ bs.dropLast, b.length = chunk) ∧
      (∀ b ∈ bs, 1 ≤ b.length ∧ b.length ≤ chunk) ∧
      (∀ p, filterStream taxids fast ex (fileLines.drop 1) [] = some p →
        p.1 = [] → bs = []) := by
  rw [accession2taxid] at h
  have hsz := accLoop_sizes taxids fast ex chunk hc (fileLines.drop 1) [] [] bs
    (by simpa using hc) h
  refine ⟨hsz.1, hsz.2, ?_⟩
  intro p hp hnil
  have hfl := accLoop_flatten taxids fast ex chunk (fileLines.drop 1) [] []
  rw [h, hp] at hfl
  simp [hnil] at hfl
  rcases bs with _ | ⟨b, bs'⟩
  · rfl
  · exfalso
    have hb := hsz.2 b (by simp)
    rw [hfl b (by simp)] at hb
    simp at hb

/-- Witness for C2: three eligible rows, chunk 2, one full batch and one
remainder batch. -/
theorem accession2taxid_batch_size_invariant_witness :
    (∀ b ∈ ([[{ accession := ("A1").data, taxid := ("9").data },
               { accession := ("A2").data, taxid := ("9").data }],
             [{ accession := ("A3").data, taxid := ("9").data }]] :
        List (List AccEntry)).dropLast, b.length = 2) ∧
      (∀ b ∈ ([[{ accession := ("A1").data, taxid := ("9").data },
                 { accession := ("A2").data, taxid := ("9").data }],
               [{ accession := ("A3").data, taxid := ("9").data }]] :
          List (List AccEntry)), 1 ≤ b.length ∧ b.length ≤ 2) ∧
      (∀ p, filterStream [("9").data] false (fun _ => false)
          (([("h").data, ("A1\tv\t9").data, ("A2\tv\t9").data,
             ("A3\tv\t9").data]).drop 1) [] = some p →
        p.1 = [] →
        ([[{ accession := ("A1").data, taxid := ("9").data },
           { accession := ("A2").data, taxid := ("9").data }],
          [{ accession := ("A3").data, taxid := ("9").data }]] :
            List (List AccEntry)) = []) :=
  accession2taxid_batch_size_invariant [("9").data] false (fun _ => false) 2
    [("h").data, ("A1\tv\t9").data, ("A2\tv\t9").data, ("A3\tv\t9").data]
    [[{ accession := ("A1").data, taxid := ("9").data },
      { accession := ("A2").data, taxid := ("9").data }],
     [{ accession := ("A3").data, taxid := ("9").data }]]
    (by decide) (by decide)

/-- C3: every record yielded by `accession2taxid` carries a taxid of the
known-id set, and `taxdump` builds no node record, name record or merged
record from a row whose id was already in the known-id set. -/
theorem known_id_filter_correct (ncbi_ids taxids : List Str) (fast : Bool)
    (ex : Str → Bool) (chunk : Nat) (nl ml fileLines : List Str)
    (bs : List (List AccEntry)) (nd : List NodeRecord) (nm : List NameRecord)
    (out : List TaxaInfo)
    (hacc : accession2taxid taxids fast ex chunk fileLines = some bs)
    (hnd : nodesData ncbi_ids nl = some nd)
    (hnm : namesData ncbi_ids ml = some nm)
    (hout : taxdump ncbi_ids nl ml = some out) :
    (∀ b ∈ bs, ∀ r ∈ b, r.taxid ∈ taxids) ∧
      (∀ r ∈ nd, r.ncbi_taxid ∉ ncbi_ids) ∧
      (∀ r ∈ nm, r.ncbi_taxid ∉ ncbi_ids) ∧
      (∀ t ∈ out, t.ncbi_taxid ∉ ncbi_ids) := by
  refine ⟨?_, nodesData_not_known ncbi_ids nl nd hnd,
    namesData_not_known ncbi_ids ml nm hnm,
    taxdump_not_known ncbi_ids nl ml out hout⟩
  intro b hb r hr
  have hfl := accLoop_flatten taxids fast ex chunk (fileLines.drop 1) [] []
  rw [accession2taxid] at hacc
  rw [hacc] at hfl
  rcases hp : filterStream taxids fast ex (fileLines.drop 1) [] with _ | p
  · rw [hp] at hfl
    simp at hfl
  · rw [hp] at hfl
    simp at hfl
    have hrf : r ∈ bs.flatten := List.mem_flatten.mpr ⟨b, hb, hr⟩
    rw [hfl] at hrf
    exact filterStream_taxids taxids fast ex (fileLines.drop 1) [] p hp r hrf

/-- Witness for C3 at concrete inputs for both parsers. -/
theorem known_id_filter_correct_witness :
    (∀ b ∈ ([[{ accession := ("A").data, taxid := ("9").data }]] :
        List (List AccEntry)), ∀ r ∈ b, r.taxid ∈ [("9").data]) ∧
      (∀ r ∈ [({ ncbi_taxid := ("2").data, parent_taxid := ("1").data
               , tax_name := [], lineage_level := ("species").data } : NodeRecord)],
        r.ncbi_taxid ∉ [("1").data]) ∧
      (∀ r ∈ [({ ncbi_taxid := ("2").data
               , tax_name := ("n").data } : NameRecord)],
        r.ncbi_taxid ∉ [("1").data]) ∧
      (∀ t ∈ [({ ncbi_taxid := ("2").data, parent_taxid := ("1").data
               , tax_name := ("n").data
               , lineage_level := ("species").data } : TaxaInfo)],
        t.ncbi_taxid ∉ [("1").data]) :=
  known_id_filter_correct [("1").data] [("9").data] false (fun _ => false) 500
    [("2|1|species").data] [("2|n|scientific name").data]
    [("h").data, ("A\tv\t9").data]
    [[{ accession := ("A").data, taxid := ("9").data }]]
    [{ ncbi_taxid := ("2").data, parent_taxid := ("1").data
     , tax_name := [], lineage_level := ("species").data }]
    [{ ncbi_taxid := ("2").data, tax_name := ("n").data }]
    [{ ncbi_taxid := ("2").data, parent_taxid := ("1").data
     , tax_name := ("n").data, lineage_level := ("species").data }]
    (by decide) (by decide) (by decide) (by decide)

/-- C8: the first line of the accession file is discarded unread: the result
never depends on its content (even malformed), and a file holding only a
header yields no batch and no failure. -/
theorem header_always_discarded (taxids : List Str) (fast : Bool)
    (ex : Str → Bool) (chunk : Nat) (hdr1 hdr2 : Str) (rest : List Str) :
    accession2taxid taxids fast ex chunk (hdr1 :: rest)
        = accession2taxid taxids fast ex chunk (hdr2 :: rest) ∧
      accession2taxid taxids fast ex chunk [hdr1] = some [] :=
  ⟨rfl, rfl⟩

/-- C10: flattening the batched output of `accession2taxid` recovers exactly
the unchunked eligible-record stream, in input-line order: batching neither
drops, duplicates nor reorders records. -/
theorem batching_pure_partition (taxids : List Str) (fast : Bool)
    (ex : Str → Bool) (chunk : Nat) (fileLines : List Str) :
    (accession2taxid taxids fast ex chunk fileLines).map List.flatten
      = (filterStream taxids fast ex (fileLines.drop 1) []).map Prod.fst := by
  rw [accession2taxid, accLoop_flatten]
  cases filterStream taxids fast ex (fileLines.drop 1) [] <;> simp

/-- C6: `check_file` returns true exactly when the path is set, exists and is
a regular file; when unset it fails as `ConfigurationError`, when missing as
`NotFoundError`, and when present but not a regular file as
`InvalidInputError`. -/
theorem check_file_trichotomy (fs : FS) (element : Option Str) :
    (check_file fs element = .ok true ↔
        ∃ p, element = some p ∧ fs.pathExists p = true ∧ fs.isFile p = true) ∧
      (element = none → check_file fs element = .error .ConfigurationError) ∧
      (∀ p, element = some p → fs.pathExists p = false →
        check_file fs element = .error .NotFoundError) ∧
      (∀ p, element = some p → fs.pathExists p = true → fs.isFile p = false →
        check_file fs element = .error .InvalidInputError) := by
  rcases element with _ | p
  · simp [check_file]
  · by_cases he : fs.pathExists p <;> by_cases hf : fs.isFile p <;>
      simp [check_file, he, hf]

/-- Witness for C6: a path that exists but is not a regular file. -/
theorem check_file_trichotomy_witness :
    check_file ⟨fun _ => true, fun _ => false⟩ (some (("x").data))
      = .error .InvalidInputError :=
  (check_file_trichotomy ⟨fun _ => true, fun _ => false⟩
      (some (("x").data))).2.2.2 (("x").data) rfl rfl rfl

/-- C7: each setter reports exactly the FileGuard verdict, leaves the state
unchanged when validation fails, and on success stores the argument and
returns true. -/
theorem setters_validate_before_mutate (fs : FS) (st : TaxaDumpParserState)
    (ast : Accession2TaxidParserState) (arg : Option Str) :
    ((set_nodes_file fs st arg).2 = check_file fs arg) ∧
      (∀ e, check_file fs arg = .error e → (set_nodes_file fs st arg).1 = st) ∧
      (∀ p, arg = some p → check_file fs arg = .ok true →
        (set_nodes_file fs st arg).1 = { st with nodes_file := some p }) ∧
      ((set_names_file fs st arg).2 = check_file fs arg) ∧
      (∀ e, check_file fs arg = .error e → (set_names_file fs st arg).1 = st) ∧
      (∀ p, arg = some p → check_file fs arg = .ok true →
        (set_names_file fs st arg).1 = { st with names_file := some p }) ∧
      ((set_accession_file fs ast arg).2 = check_file fs arg) ∧
      (∀ e, check_file fs arg = .error e →
        (set_accession_file fs ast arg).1 = ast) ∧
      (∀ p, arg = some p → check_file fs arg = .ok true →
        (set_accession_file fs ast arg).1 = { ast with acc_file := some p }) := by
  rcases arg with _ | p
  · simp [set_nodes_file, set_names_file, set_accession_file, check_file]
  · by_cases he : fs.pathExists p <;> by_cases hf : fs.isFile p <;>
      simp [set_nodes_file, set_names_file, set_accession_file,
        check_file, he, hf]

/-- Witness for C7: a successful `set_nodes_file` stores the path. -/
theorem setters_validate_before_mutate_witness :
    (set_nodes_file ⟨fun _ => true, fun _ => true⟩
        { nodes_file := none, names_file := none } (some (("n.dmp").data))).1
      = { nodes_file := some (("n.dmp").data), names_file := none } :=
  (setters_validate_before_mutate ⟨fun _ => true, fun _ => true⟩
      { nodes_file := none, names_file := none }
      { acc_file := none, chunk := 500, fast := false }
      (some (("n.dmp").data))).2.2.1 (("n.dmp").data) rfl rfl

/-- C4 counterexample: a file holding the same accession on two eligible
lines, with that accession already present in the store
(`accessionExists` constantly true).  Default (non-fast) mode emits the
accession twice, not once: because the store lookup succeeds, the accession
is never added to the seen-set and in-pass dedup never engages. -/
theorem default_mode_duplicate_counterexample :
    (accession2taxid [("9606").data] false (fun _ => true) 500
        [("h").data, ("A1\tv1\t9606").data, ("A1\tv1\t9606").data]).map
      (fun bs => (bs.flatten.filter
        (fun r => r.accession == ("A1").data)).length) = some 2 := by
  decide

/-- C4 amended: for a file holding the same accession on two eligible lines,
and provided the store lookup reports that accession absent
(`accessionExists` false on it), default mode emits it exactly once across
all yielded batches while fast mode emits it exactly twice. -/
theorem duplicate_accession_default_once_fast_twice
    (taxids : List Str) (ex : Str → Bool) (chunk : Nat)
    (hdr a v1 v2 t1 t2 : Str)
    (hna : tabChar ∉ a) (hv1 : tabChar ∉ v1) (hv2 : tabChar ∉ v2)
    (ht1c : tabChar ∉ t1) (ht2c : tabChar ∉ t2)
    (ht1 : t1 ∈ taxids) (ht2 : t2 ∈ taxids) (hex : ex a = false) :
    (accession2taxid taxids false ex chunk
        [hdr, a ++ tabChar :: (v1 ++ tabChar :: t1),
          a ++ tabChar :: (v2 ++ tabChar :: t2)]).map
      (fun bs => (bs.flatten.filter (fun r => r.accession == a)).length)
        = some 1 ∧
    (accession2taxid taxids true ex chunk
        [hdr, a ++ tabChar :: (v1 ++ tabChar :: t1),
          a ++ tabChar :: (v2 ++ tabChar :: t2)]).map
      (fun bs => (bs.flatten.filter (fun r => r.accession == a)).length)
        = some 2 := by
  have hsplit1 : splitOnChar tabChar (a ++ tabChar :: (v1 ++ tabChar :: t1))
      = [a, v1, t1] := by
    rw [splitOnChar_field tabChar a _ hna, splitOnChar_field tabChar v1 _ hv1,
      splitOnChar_of_not_mem tabChar t1 ht1c]
  have hsplit2 : splitOnChar tabChar (a ++ tabChar :: (v2 ++ tabChar :: t2))
      = [a, v2, t2] := by
    rw [splitOnChar_field tabChar a _ hna, splitOnChar_field tabChar v2 _ hv2,
      splitOnChar_of_not_mem tabChar t2 ht2c]
  have hfsd : filterStream taxids false ex
      [a ++ tabChar :: (v1 ++ tabChar :: t1), a ++ tabChar :: (v2 ++ tabChar :: t2)]
      [] = some ([{ accession := a, taxid := t1 }], [a]) := by
    simp [filterStream, hsplit1, hsplit2, ht1, ht2, hex]
  have hfsf : filterStream taxids true ex
      [a ++ tabChar :: (v1 ++ tabChar :: t1), a ++ tabChar :: (v2 ++ tabChar :: t2)]
      [] = some ([{ accession := a, taxid := t1 },
                  { accession := a, taxid := t2 }], []) := by
    simp [filterStream, hsplit1, hsplit2, ht1, ht2]
  constructor
  · have hb := accLoop_flatten taxids false ex chunk
      [a ++ tabChar :: (v1 ++ tabChar :: t1), a ++ tabChar :: (v2 ++ tabChar :: t2)]
      [] []
    rw [hfsd] at hb
    simp only [Option.map] at hb
    rcases Option.map_eq_some'.mp hb with ⟨bs0, hbs0, hflat⟩
    have hrun : accession2taxid taxids false ex chunk
        [hdr, a ++ tabChar :: (v1 ++ tabChar :: t1),
          a ++ tabChar :: (v2 ++ tabChar :: t2)] = some bs0 := by
      rw [accession2taxid]
      exact hbs0
    rw [hrun]
    show some ((bs0.flatten.filter (fun r => r.accession == a)).length) = some 1
    rw [List.nil_append] at hflat
    rw [hflat]
    simp
  · have hb := accLoop_flatten taxids true ex chunk
      [a ++ tabChar :: (v1 ++ tabChar :: t1), a ++ tabChar :: (v2 ++ tabChar :: t2)]
      [] []
    rw [hfsf] at hb
    simp only [Option.map] at hb
    rcases Option.map_eq_some'.mp hb with ⟨bs0, hbs0, hflat⟩
    have hrun : accession2taxid taxids true ex chunk
        [hdr, a ++ tabChar :: (v1 ++ tabChar :: t1),
          a ++ tabChar :: (v2 ++ tabChar :: t2)] = some bs0 := by
      rw [accession2taxid]
      exact hbs0
    rw [hrun]
    show some ((bs0.flatten.filter (fun r => r.accession == a)).length) = some 2
    rw [List.nil_append] at hflat
    rw [hflat]
    simp

/-- Witness for the amended C4 at a concrete file. -/
theorem duplicate_accession_default_once_fast_twice_witness :
    (accession2taxid [("9").data] false (fun _ => false) 500
        [("h").data,
          ("A1").data ++ tabChar :: (("v").data ++ tabChar :: ("9").data),
          ("A1").data ++ tabChar :: (("w").data ++ tabChar :: ("9").data)]).map
      (fun bs => (bs.flatten.filter
        (fun r => r.accession == ("A1").data)).length) = some 1 ∧
    (accession2taxid [("9").data] true (fun _ => false) 500
        [("h").data,
          ("A1").data ++ tabChar :: (("v").data ++ tabChar :: ("9").data),
          ("A1").data ++ tabChar :: (("w").data ++ tabChar :: ("9").data)]).map
      (fun bs => (bs.flatten.filter
        (fun r => r.accession == ("A1").data)).length) = some 2 :=
  duplicate_accession_default_once_fast_twice [("9").data] (fun _ => false) 500
    (("h").data) (("A1").data) (("v").data) (("w").data) (("9").data)
    (("9").data) (by decide) (by decide) (by decide) (by decide) (by decide)
    (by decide) (by decide) rfl

/-- C5 counterexample: a parser configured with chunk size 1, invoked with no
explicit chunk argument, still batches with the function default 500: two
eligible rows land in a single batch of length two instead of two batches of
length one. -/
theorem chunk_default_counterexample :
    resolveChunk 1 chunkDefaultArg = 500 ∧
    accession2taxid [("9").data] false (fun _ => false)
        (resolveChunk 1 chunkDefaultArg)
        [("h").data, ("A1\tv\t9").data, ("A2\tv\t9").data]
      = some [[{ accession := ("A1").data, taxid := ("9").data },
               { accession := ("A2").data, taxid := ("9").data }]] := by
  constructor
  · rfl
  · decide

/-- C5 amended: when `accession2taxid` is invoked without an explicit chunk
argument the effective batch size is the function parameter default 500,
whatever the instance's configured chunk; the configured value is used
exactly when the caller passes a falsy chunk (`None` or `0`). -/
theorem chunk_resolution_default (selfChunk : Nat) (taxids : List Str)
    (fast : Bool) (ex : Str → Bool) (fileLines : List Str) :
    resolveChunk selfChunk chunkDefaultArg = 500 ∧
      resolveChunk selfChunk none = selfChunk ∧
      resolveChunk selfChunk (some 0) = selfChunk ∧
      accession2taxid taxids fast ex (resolveChunk selfChunk chunkDefaultArg)
          fileLines
        = accession2taxid taxids fast ex 500 fileLines :=
  ⟨rfl, rfl, rfl, rfl⟩

/-- C9: in default (non-fast) mode, an accession the store already holds
(`accessionExists` true) is never added to the seen-set, and
`accession2taxid` emits one record for it per eligible input line (in-pass
dedup applies only to store-absent accessions). -/
theorem store_present_accession_not_deduplicated (taxids : List Str)
    (ex : Str → Bool) (a : Str) (chunk : Nat) (fileLines : List Str)
    (bs : List (List AccEntry)) (p : List AccEntry × List Str)
    (hex : ex a = true)
    (h : accession2taxid taxids false ex chunk fileLines = some bs)
    (hp : filterStream taxids false ex (fileLines.drop 1) [] = some p) :
    a ∉ p.2 ∧
      (bs.flatten.filter (fun r => r.accession == a)).length
        = (fileLines.drop 1).countP (eligLineFor taxids a) := by
  have hsp := filterStream_store_present taxids ex a hex (fileLines.drop 1) [] p
    (by simp) hp
  refine ⟨hsp.1, ?_⟩
  have hfl := accLoop_flatten taxids false ex chunk (fileLines.drop 1) [] []
  rw [accession2taxid] at h
  rw [h, hp] at hfl
  simp at hfl
  rw [hfl]
  exact hsp.2

/-- Witness for C9: a store-present accession on two eligible lines is
emitted twice by default mode and never enters the seen-set. -/
theorem store_present_accession_not_deduplicated_witness :
    (("A").data : Str) ∉ (([{ accession := ("A").data, taxid := ("9").data },
        { accession := ("A").data, taxid := ("9").data }], []) :
          List AccEntry × List Str).2 ∧
      ((([[{ accession := ("A").data, taxid := ("9").data },
           { accession := ("A").data, taxid := ("9").data }]] :
          List (List AccEntry)).flatten.filter
        (fun r => r.accession == ("A").data)).length
        = (([("h").data, ("A\tv\t9").data, ("A\tv\t9").data]).drop 1).countP
            (eligLineFor [("9").data] (("A").data))) :=
  store_present_accession_not_deduplicated [("9").data] (fun _ => true)
    (("A").data) 500 [("h").data, ("A\tv\t9").data, ("A\tv\t9").data]
    [[{ accession := ("A").data, taxid := ("9").data },
      { accession := ("A").data, taxid := ("9").data }]]
    ([{ accession := ("A").data, taxid := ("9").data },
      { accession := ("A").data, taxid := ("9").data }], [])
    rfl (by decide) (by decide)

